import Mathlib

/-!
Verification development for the wildtrip field-guide content backend.

The definitions below are a shallow embedding of the repository layer in
`src/backend/src/modules/species/species.repository.ts` and the user update
flow in `src/backend/src/modules/users/users.service.ts`, over the row shape
declared by the drizzle schema (`draft_data` JSON overlay, `has_draft`,
`draft_created_at`, lifecycle timestamps).

Modelling conventions:
- A JavaScript/JSON field value is a `JValue`.  Structured nested values
  (rich content blocks, image objects, arrays) are never inspected by the
  repository logic except as whole values, so they are carried whole, uninterpreted, by
  the `jstruct` constructor.  `jundef` models JavaScript `undefined`
  (a key looked up on an object that does not have it); JSON stored in the
  database never contains `jundef`.
- A JavaScript object is an association list `List (String × JValue)` with
  unique keys; spread-merge `{...a, ...b}` is `applyPatch a b`.
- The database is a `List SpeciesRow` snapshot; `UPDATE ... WHERE id = ?`
  is `updateRow`, `SELECT ... WHERE id = ?` destructured to the first row
  is `findRow`.  Timestamps (`new Date()`) are `Nat` parameters supplied by
  the caller, one per operation.
- Kind-specific published columns (commonName, scientificName, mainGroup,
  richContent, images, SEO fields, ...) live in the `content` association
  list keyed by their JS property name; fixed bookkeeping columns (id, slug,
  status, draft fields, timestamps) are structure fields.
-/

inductive JValue where
  | jundef
  | jnull
  | jbool (b : Bool)
  | jnum (n : Int)
  | jstr (s : String)
  | jstruct (tag : String)
deriving DecidableEq, Repr

/-- Lookup of a key on a JS object: first entry with the key, if any. -/
def lookupKey : List (String × JValue) → String → Option JValue
  | [], _ => none
  | (k, v) :: rest, key => if k = key then some v else lookupKey rest key

/-- Reading a column/property: a missing key reads as SQL NULL / JSON null. -/
def getField (l : List (String × JValue)) (k : String) : JValue :=
  (lookupKey l k).getD JValue.jnull

/-- JS `key in obj` / destructured-value-is-not-undefined test. -/
def hasKey (l : List (String × JValue)) (k : String) : Bool :=
  (lookupKey l k).isSome

/-- Assignment `obj[k] = v`: replace the first binding of `k`, or append. -/
def setKey : List (String × JValue) → String → JValue → List (String × JValue)
  | [], k, v => [(k, v)]
  | (k0, v0) :: rest, k, v =>
      if k0 = k then (k, v) :: rest else (k0, v0) :: setKey rest k v

/-- JS spread-merge `{...base, ...patch}`: keys of `patch` override. -/
def applyPatch (base patch : List (String × JValue)) : List (String × JValue) :=
  patch.foldl (fun acc kv => setKey acc kv.1 kv.2) base

/-- JS rest-destructuring `{richContent, ...other} = obj`: drop one key. -/
def removeKey : List (String × JValue) → String → List (String × JValue)
  | [], _ => []
  | (k0, v0) :: rest, k =>
      if k0 = k then removeKey rest k else (k0, v0) :: removeKey rest k

/-- The publish cleanup loop: `delete updateData[key]` when the value is
`undefined` (species.repository.ts lines 199-203). -/
def removeUndefined : List (String × JValue) → List (String × JValue)
  | [] => []
  | (k0, v0) :: rest =>
      if v0 = JValue.jundef then removeUndefined rest
      else (k0, v0) :: removeUndefined rest

/-- Keys of a JS object are unique. -/
def keysNodup (l : List (String × JValue)) : Prop :=
  (l.map Prod.fst).Nodup

/-- A well-formed draft overlay, as produced by the editing UI and stored in
the `draft_data` JSON column: unique keys, JSON-sourced values (never
`undefined`), and only kind-specific content columns (never the bookkeeping
columns id/slug/status/draft fields/timestamps, which `publish` always sets
itself after the spread). -/
def wfDraft (d : List (String × JValue)) : Prop :=
  keysNodup d ∧ ∀ kv ∈ d, kv.2 ≠ JValue.jundef

/-- A species row as declared by the drizzle schema: fixed bookkeeping
columns plus the kind-specific published columns in `content`. -/
structure SpeciesRow where
  id : Nat
  slug : String
  status : String
  createdAt : Nat
  updatedAt : Nat
  publishedAt : Option Nat
  draftData : Option (List (String × JValue))
  hasDraft : Bool
  draftCreatedAt : Option Nat
  content : List (String × JValue)
deriving DecidableEq, Repr

/-- `SELECT ... WHERE eq(id)` destructured to its first row. -/
def findRow : List SpeciesRow → Nat → Option SpeciesRow
  | [], _ => none
  | r :: rest, id => if r.id = id then some r else findRow rest id

/-- `SELECT ... WHERE eq(slug)` destructured to its first row. -/
def findRowBySlug : List SpeciesRow → String → Option SpeciesRow
  | [], _ => none
  | r :: rest, sl => if r.slug = sl then some r else findRowBySlug rest sl

/-- `UPDATE ... SET ... WHERE eq(id)`: replace every row with that id. -/
def updateRow (db : List SpeciesRow) (id : Nat) (r' : SpeciesRow) : List SpeciesRow :=
  db.map (fun r => if r.id = id then r' else r)

/-- The enum check `['draft','published','archived'].includes(status)`. -/
def inEnumStatus (s : String) : Bool :=
  s == "draft" || s == "published" || s == "archived"

/-- The allow-list check `validGroups.includes(mainGroup)`. -/
def inValidGroups (g : String) : Bool :=
  g == "mammal" || g == "bird" || g == "reptile" || g == "amphibian" ||
  g == "fish" || g == "insect" || g == "arachnid" || g == "crustacean" ||
  g == "mollusk" || g == "plant" || g == "fungus" || g == "algae" ||
  g == "other"

/-- Character-list version of a substring test starting at the head. -/
def matchesAt : List Char → List Char → Bool
  | [], _ => true
  | _ :: _, [] => false
  | n :: ns, h :: hs => n = h && matchesAt ns hs

/-- Substring containment over character lists. -/
def containsSub (needle : List Char) : List Char → Bool
  | [] => matchesAt needle []
  | c :: rest => matchesAt needle (c :: rest) || containsSub needle rest

/-- `ILIKE '%needle%'` on a text column: case-insensitive substring match.
A non-string column value (SQL NULL in particular) never matches. -/
def ilikeField (l : List (String × JValue)) (col : String) (needle : String) : Bool :=
  match getField l col with
  | JValue.jstr s => containsSub needle.toLower.data s.toLower.data
  | _ => false

/-- The status condition pushed by findAll (species.repository.ts 24-28):
pushed only when the value is truthy and inside the enum, else dropped. -/
def statusCond (status : Option String) (r : SpeciesRow) : Bool :=
  match status with
  | some s => if inEnumStatus s then r.status == s else true
  | none => true

/-- The mainGroup condition (lines 30-49): pushed only for allow-listed
values, else silently dropped. -/
def groupCond (mainGroup : Option String) (r : SpeciesRow) : Bool :=
  match mainGroup with
  | some g => if inValidGroups g then getField r.content "mainGroup" == JValue.jstr g else true
  | none => true

/-- The search condition (lines 51-58): ILIKE on commonName OR
scientificName; an empty search string is falsy and pushes nothing. -/
def searchCond (search : Option String) (r : SpeciesRow) : Bool :=
  match search with
  | some s =>
      if s == "" then true
      else ilikeField r.content "commonName" s || ilikeField r.content "scientificName" s
  | none => true

/-- The conjunction of all pushed where-conditions (`and(...conditions)`).
Only the filter inputs matter, not page/limit. -/
def rowMatches (status mainGroup search : Option String) (r : SpeciesRow) : Bool :=
  statusCond status r && groupCond mainGroup r && searchCond search r

structure FindAllParams where
  page : Nat := 1
  limit : Nat := 20
  search : Option String := none
  mainGroup : Option String := none
  status : Option String := none
deriving DecidableEq, Repr

structure Pagination where
  page : Nat
  limit : Nat
  total : Nat
  totalPages : Nat
deriving DecidableEq, Repr

structure FindAllResult where
  data : List SpeciesRow
  pagination : Pagination
deriving DecidableEq, Repr

/-- `Math.ceil(count / limit)` for a positive integer limit. -/
def ceilDivNat (a b : Nat) : Nat := (a + b - 1) / b

/-- `ORDER BY created_at DESC`: descending creation order, modelled as a
stable sort of the snapshot; the snapshot order stands for the database's
unspecified order among ties. -/
def createdGe (a b : SpeciesRow) : Prop := b.createdAt ≤ a.createdAt

instance : DecidableRel createdGe := fun a b => Nat.decLe b.createdAt a.createdAt

instance : IsTotal SpeciesRow createdGe :=
  ⟨fun a b => (Nat.le_total b.createdAt a.createdAt).symm.symm⟩

instance : IsTrans SpeciesRow createdGe :=
  ⟨fun _ _ _ hab hbc => Nat.le_trans hbc hab⟩

/-- `findAll` (species.repository.ts 10-87): filter, order by createdAt
descending, window by offset/limit, and report the windowed count
`count(*) OVER()` read off the first returned row (0 when the page is
empty). -/
def findAll (db : List SpeciesRow) (p : FindAllParams) : FindAllResult :=
  let filtered := db.filter (rowMatches p.status p.mainGroup p.search)
  let sorted := List.insertionSort createdGe filtered
  let offset := (p.page - 1) * p.limit
  let windowed := (sorted.drop offset).take p.limit
  let count := if windowed.isEmpty then 0 else filtered.length
  { data := windowed,
    pagination :=
      { page := p.page, limit := p.limit, total := count,
        totalPages := ceilDivNat count p.limit } }

/-- `findById` (lines 89-114): returns the stored row; when `includeDraft`
and a draft is present, returns the row with the draft overlay spread over
it (the `isDraft: true` marker is not modelled). -/
def findById (db : List SpeciesRow) (id : Nat) (includeDraft : Bool) : Option SpeciesRow :=
  match findRow db id with
  | none => none
  | some r =>
      match r.draftData with
      | some d =>
          if includeDraft && r.hasDraft then
            some { r with content := applyPatch r.content d }
          else some r
      | none => some r

/-- `findBySlug` (lines 116-123): the stored row, unmodified. -/
def findBySlug (db : List SpeciesRow) (sl : String) : Option SpeciesRow :=
  findRowBySlug db sl

inductive PublishError where
  | notFound
  | invalidState
deriving DecidableEq, Repr

/-- `publish` (species.repository.ts 146-257).  With a draft present:
destructure `richContent` out of the draft, keep the draft's `richContent`
when the key is present (explicit null included) else the current column,
spread the remaining draft keys, clear the draft fields, set
status/publishedAt/updatedAt, drop `undefined`-valued keys, and apply it all
as one `UPDATE`.  Without a draft: promote a status-draft row, else fail. -/
def publishStore (db : List SpeciesRow) (id : Nat) (now : Nat) :
    Except PublishError (SpeciesRow × List SpeciesRow) :=
  match findRow db id with
  | none => Except.error PublishError.notFound
  | some current =>
      match current.draftData with
      | some d =>
          let other := removeKey d "richContent"
          let richContentToSave :=
            if hasKey d "richContent" then getField d "richContent"
            else getField current.content "richContent"
          let patch := removeUndefined (setKey other "richContent" richContentToSave)
          let r' : SpeciesRow :=
            { current with
              content := applyPatch current.content patch,
              draftData := none, hasDraft := false, draftCreatedAt := none,
              status := "published", publishedAt := some now, updatedAt := now }
          Except.ok (r', updateRow db id r')
      | none =>
          if current.status = "draft" then
            let r' : SpeciesRow :=
              { current with status := "published", publishedAt := some now, updatedAt := now }
            Except.ok (r', updateRow db id r')
          else Except.error PublishError.invalidState

/-- `createDraft` (lines 259-300): merge the patch over the existing draft
(`{...existingDraft, ...draftData}`), set `hasDraft`, start `draftCreatedAt`
only if not already set (`current.draftCreatedAt || new Date()`). -/
def createDraft (db : List SpeciesRow) (id : Nat) (patch : List (String × JValue)) (now : Nat) :
    Except PublishError (SpeciesRow × List SpeciesRow) :=
  match findRow db id with
  | none => Except.error PublishError.notFound
  | some current =>
      let existingDraft := current.draftData.getD []
      let updatedDraft := applyPatch existingDraft patch
      let r' : SpeciesRow :=
        { current with
          draftData := some updatedDraft, hasDraft := true,
          draftCreatedAt := some (current.draftCreatedAt.getD now), updatedAt := now }
      Except.ok (r', updateRow db id r')

/-- `discardDraft` (lines 302-316): unconditionally clear the draft fields
and bump `updatedAt`; a missing row yields an undefined result, not an
error. -/
def discardDraft (db : List SpeciesRow) (id : Nat) (now : Nat) :
    Option SpeciesRow × List SpeciesRow :=
  match findRow db id with
  | none => (none, db)
  | some current =>
      let r' : SpeciesRow :=
        { current with
          draftData := none, hasDraft := false, draftCreatedAt := none, updatedAt := now }
      (some r', updateRow db id r')

/-- The column assignments carried by a raw `update(id, data)` call
(lines 131-139).  Each `some` marks a key present in `data`; the repository
passes them to `SET` unchecked, adding only `updatedAt`. -/
structure SpeciesUpdateData where
  content : List (String × JValue) := []
  slug : Option String := none
  status : Option String := none
  draftData : Option (Option (List (String × JValue))) := none
  hasDraft : Option Bool := none
  draftCreatedAt : Option (Option Nat) := none
  publishedAt : Option (Option Nat) := none
deriving Repr

/-- `SET {...data, updatedAt: new Date()}` applied to one row. -/
def applySet (r : SpeciesRow) (u : SpeciesUpdateData) (now : Nat) : SpeciesRow :=
  { r with
    content := applyPatch r.content u.content,
    slug := u.slug.getD r.slug,
    status := u.status.getD r.status,
    draftData := u.draftData.getD r.draftData,
    hasDraft := u.hasDraft.getD r.hasDraft,
    draftCreatedAt := u.draftCreatedAt.getD r.draftCreatedAt,
    publishedAt := u.publishedAt.getD r.publishedAt,
    updatedAt := now }

/-- `update` (lines 131-139): raw passthrough of caller data. -/
def update (db : List SpeciesRow) (id : Nat) (u : SpeciesUpdateData) (now : Nat) :
    Option SpeciesRow × List SpeciesRow :=
  match findRow db id with
  | none => (none, db)
  | some current =>
      let r' := applySet current u now
      (some r', updateRow db id r')

/-- `create` (lines 125-129): `INSERT ... VALUES(data) RETURNING`; the
inserted row (with schema defaults already resolved) is appended. -/
def create (db : List SpeciesRow) (r : SpeciesRow) : SpeciesRow × List SpeciesRow :=
  (r, db ++ [r])

/-- The hasDraft/draftData consistency invariant from the spec. -/
def draftInvariant (r : SpeciesRow) : Prop :=
  r.hasDraft = r.draftData.isSome

instance (r : SpeciesRow) : Decidable (draftInvariant r) := by
  unfold draftInvariant; infer_instance

/-- A user row from the users schema (the columns the update flow reads). -/
structure UserRow where
  id : Nat
  clerkId : String
  role : String
deriving DecidableEq, Repr

/-- The update DTO as read by users.service.ts: only `role` participates in
the authorization checks; other DTO fields are orthogonal. -/
structure UpdateUserDto where
  role : Option String := none
deriving DecidableEq, Repr

/-- JS truthiness of `updateUserDto.role`. -/
def roleTruthy (dto : UpdateUserDto) : Bool :=
  match dto.role with
  | some s => s != ""
  | none => false

def findUser : List UserRow → Nat → Option UserRow
  | [], _ => none
  | u :: rest, id => if u.id = id then some u else findUser rest id

def updateUserRow (db : List UserRow) (id : Nat) (u' : UserRow) : List UserRow :=
  db.map (fun u => if u.id = id then u' else u)

inductive UserError where
  | notFound
  | forbidden
deriving DecidableEq, Repr

/-- Modelled from the spec: `usersRepository.update(id, dto)` (repository
source not present under src/) applies the DTO's present fields to the
stored row in the local store, which is the source of truth. -/
def applyUserDto (u : UserRow) (dto : UpdateUserDto) : UserRow :=
  { u with role := dto.role.getD u.role }

/-- `UsersService.update` (users.service.ts 57-88): NotFound when the row
is absent; Forbidden on a self role-change or a role-change by a non-admin
caller; otherwise the local update proceeds (the out-of-band Clerk sync
swallows its own failures and never rolls the local write back). -/
def usersUpdate (db : List UserRow) (id : Nat) (dto : UpdateUserDto)
    (currentUserId currentUserRole : String) :
    Except UserError (UserRow × List UserRow) :=
  match findUser db id with
  | none => Except.error UserError.notFound
  | some user =>
      if user.clerkId == currentUserId && roleTruthy dto then
        Except.error UserError.forbidden
      else if roleTruthy dto && currentUserRole != "admin" then
        Except.error UserError.forbidden
      else
        let u' := applyUserDto user dto
        Except.ok (u', updateUserRow db id u')

/-- The update object built by publish from a draft overlay `d` over current
content `cur`: rest-spread of the draft with `richContent` handled
explicitly, then the undefined-cleanup. -/
def publishPatch (d cur : List (String × JValue)) : List (String × JValue) :=
  removeUndefined (setKey (removeKey d "richContent") "richContent"
    (if hasKey d "richContent" then getField d "richContent"
     else getField cur "richContent"))

/-- The row written by the draft branch of publish. -/
def publishedRow (r : SpeciesRow) (d : List (String × JValue)) (now : Nat) : SpeciesRow :=
  { r with
    content := applyPatch r.content (publishPatch d r.content),
    draftData := none, hasDraft := false, draftCreatedAt := none,
    status := "published", publishedAt := some now, updatedAt := now }

instance (d : List (String × JValue)) : Decidable (wfDraft d) := by
  unfold wfDraft keysNodup
  infer_instance

/-- Sample published content used by concrete instances below. -/
def specimenContent : List (String × JValue) :=
  [("commonName", JValue.jstr "Puma"), ("scientificName", JValue.jstr "Puma concolor")]

/-- Sample draft overlay with an override and an explicit null. -/
def draftOverlay : List (String × JValue) :=
  [("commonName", JValue.jstr "Puma concolor"), ("description", JValue.jnull)]

/-- A published row with no pending draft. -/
def cleanRow : SpeciesRow :=
  { id := 1, slug := "puma", status := "published", createdAt := 5, updatedAt := 5,
    publishedAt := some 5, draftData := none, hasDraft := false, draftCreatedAt := none,
    content := specimenContent }

/-- A published row carrying a pending draft overlay. -/
def draftRow : SpeciesRow :=
  { cleanRow with draftData := some draftOverlay, hasDraft := true, draftCreatedAt := some 6 }

/-- Two rows sharing a createdAt timestamp, higher id listed first. -/
def tieRowHigh : SpeciesRow :=
  { id := 2, slug := "b", status := "published", createdAt := 5, updatedAt := 0,
    publishedAt := none, draftData := none, hasDraft := false, draftCreatedAt := none,
    content := [] }

def tieRowLow : SpeciesRow :=
  { id := 1, slug := "a", status := "published", createdAt := 5, updatedAt := 0,
    publishedAt := none, draftData := none, hasDraft := false, draftCreatedAt := none,
    content := [] }

/-- A raw update payload that sets draftData without touching hasDraft. -/
def draftOnlyUpdate : SpeciesUpdateData :=
  { draftData := some (some [("commonName", JValue.jstr "Pm")]) }

def aliceUser : UserRow := { id := 1, clerkId := "clerk_alice", role := "user" }

/-- A row still in draft status. -/
def unpublishedRow : SpeciesRow :=
  { id := 3, slug := "c", status := "draft", createdAt := 7, updatedAt := 7,
    publishedAt := none, draftData := none, hasDraft := false, draftCreatedAt := none,
    content := [] }

/-- Concatenation of the data of pages `1..n` of a findAll listing. -/
def concatPages (db : List SpeciesRow) (p : FindAllParams) (n : Nat) : List SpeciesRow :=
  (List.range n).flatMap (fun i => (findAll db { p with page := i + 1 }).data)

/-- The C5 scenario run end to end against one store: two one-key draft
patches followed by publish, returning the published row. -/
def draftDraftPublish (db : List SpeciesRow) (id : Nat) (ka : String) (v1 : JValue)
    (kb : String) (v2 : JValue) (t1 t2 t3 : Nat) : Except PublishError SpeciesRow :=
  match createDraft db id [(ka, v1)] t1 with
  | Except.error e => Except.error e
  | Except.ok (_, db1) =>
      match createDraft db1 id [(kb, v2)] t2 with
      | Except.error e => Except.error e
      | Except.ok (_, db2) =>
          match publishStore db2 id t3 with
          | Except.error e => Except.error e
          | Except.ok (p, _) => Except.ok p

theorem lookupKey_setKey (l : List (String × JValue)) (k0 : String) (v : JValue)
    (k : String) :
    lookupKey (setKey l k0 v) k = if k = k0 then some v else lookupKey l k := by
  induction l with
  | nil =>
      by_cases h : k = k0
      · simp [setKey, lookupKey, h]
      · simp [setKey, lookupKey, h, Ne.symm h]
  | cons hd tl ih =>
      obtain ⟨k1, v1⟩ := hd
      by_cases h1 : k1 = k0
      · subst h1
        by_cases h2 : k = k1
        · simp [setKey, lookupKey, h2]
        · simp [setKey, lookupKey, h2, Ne.symm h2]
      · by_cases h2 : k1 = k
        · have h3 : ¬ k = k0 := by
            intro he
            exact h1 (h2.trans he)
          simp [setKey, lookupKey, h1, h2, h3]
        · simp [setKey, lookupKey, h1, h2, ih]

theorem lookupKey_eq_none_of_not_mem (l : List (String × JValue)) (k : String)
    (h : k ∉ l.map Prod.fst) : lookupKey l k = none := by
  induction l with
  | nil => simp [lookupKey]
  | cons hd tl ih =>
      obtain ⟨k1, v1⟩ := hd
      simp only [List.map_cons, List.mem_cons, not_or] at h
      simp [lookupKey, Ne.symm h.1, ih h.2]

theorem hasKey_iff_mem (l : List (String × JValue)) (k : String) :
    hasKey l k = true ↔ k ∈ l.map Prod.fst := by
  induction l with
  | nil => simp [hasKey, lookupKey]
  | cons hd tl ih =>
      obtain ⟨k1, v1⟩ := hd
      by_cases h : k1 = k
      · simp [hasKey, lookupKey, h]
      · rw [show hasKey ((k1, v1) :: tl) k = hasKey tl k by
            simp [hasKey, lookupKey, h]]
        rw [ih]
        simp only [List.map_cons, List.mem_cons]
        constructor
        · exact Or.inr
        · rintro (he | hm)
          · exact absurd he.symm h
          · exact hm

theorem hasKey_setKey (l : List (String × JValue)) (k0 : String) (v : JValue)
    (k : String) :
    hasKey (setKey l k0 v) k = (k == k0 || hasKey l k) := by
  unfold hasKey
  rw [lookupKey_setKey]
  by_cases h : k = k0 <;> simp [h]

theorem keysNodup_setKey (l : List (String × JValue)) (k : String) (v : JValue)
    (h : keysNodup l) : keysNodup (setKey l k v) := by
  induction l with
  | nil => simp [setKey, keysNodup]
  | cons hd tl ih =>
      obtain ⟨k1, v1⟩ := hd
      unfold keysNodup at h
      simp only [List.map_cons, List.nodup_cons] at h
      by_cases h1 : k1 = k
      · subst h1
        unfold keysNodup
        simpa [setKey] using h
      · have htl := ih h.2
        unfold keysNodup
        simp only [setKey, h1, if_false, List.map_cons, List.nodup_cons]
        refine ⟨?_, htl⟩
        intro hmem
        have hh : hasKey (setKey tl k v) k1 = true := (hasKey_iff_mem _ _).mpr hmem
        rw [hasKey_setKey] at hh
        rcases Bool.or_eq_true_iff.mp hh with hbeq | hk
        · exact h1 (by simpa using hbeq)
        · exact h.1 ((hasKey_iff_mem _ _).mp hk)

theorem removeKey_sublist (l : List (String × JValue)) (k : String) :
    (removeKey l k).Sublist l := by
  induction l with
  | nil => simp [removeKey]
  | cons hd tl ih =>
      obtain ⟨k1, v1⟩ := hd
      by_cases h : k1 = k
      · simp only [removeKey, h, if_true]
        exact ih.cons _
      · simp only [removeKey, h, if_false]
        exact ih.cons₂ _

theorem removeUndefined_sublist (l : List (String × JValue)) :
    (removeUndefined l).Sublist l := by
  induction l with
  | nil => simp [removeUndefined]
  | cons hd tl ih =>
      obtain ⟨k1, v1⟩ := hd
      by_cases h : v1 = JValue.jundef
      · simp only [removeUndefined, h, if_true]
        exact ih.cons _
      · simp only [removeUndefined, h, if_false]
        exact ih.cons₂ _

theorem keysNodup_removeKey (l : List (String × JValue)) (k : String)
    (h : keysNodup l) : keysNodup (removeKey l k) :=
  List.Nodup.sublist (List.Sublist.map Prod.fst (removeKey_sublist l k)) h

theorem keysNodup_removeUndefined (l : List (String × JValue))
    (h : keysNodup l) : keysNodup (removeUndefined l) :=
  List.Nodup.sublist (List.Sublist.map Prod.fst (removeUndefined_sublist l)) h

theorem lookupKey_removeKey_ne (l : List (String × JValue)) (k0 k : String)
    (h : k ≠ k0) : lookupKey (removeKey l k0) k = lookupKey l k := by
  induction l with
  | nil => simp [removeKey]
  | cons hd tl ih =>
      obtain ⟨k1, v1⟩ := hd
      by_cases h1 : k1 = k0
      · subst h1
        simp [removeKey, lookupKey, Ne.symm h, ih]
      · by_cases h2 : k1 = k
        · subst h2
          simp [removeKey, lookupKey, h1, h]
        · simp [removeKey, h1, lookupKey, h2, ih]

theorem lookupKey_removeKey_self (l : List (String × JValue)) (k0 : String) :
    lookupKey (removeKey l k0) k0 = none := by
  induction l with
  | nil => simp [removeKey, lookupKey]
  | cons hd tl ih =>
      obtain ⟨k1, v1⟩ := hd
      by_cases h1 : k1 = k0
      · simpa [removeKey, h1, lookupKey] using ih
      · simp [removeKey, h1, lookupKey, ih]

theorem lookupKey_removeUndefined_of_some (l : List (String × JValue)) (k : String)
    (v : JValue) (h : lookupKey l k = some v) (hv : v ≠ JValue.jundef) :
    lookupKey (removeUndefined l) k = some v := by
  induction l with
  | nil => simp [lookupKey] at h
  | cons hd tl ih =>
      obtain ⟨k1, v1⟩ := hd
      by_cases h1 : k1 = k
      · subst h1
        simp [lookupKey] at h
        subst h
        simp [removeUndefined, hv, lookupKey]
      · simp only [lookupKey, h1, if_false] at h
        by_cases hv1 : v1 = JValue.jundef
        · simp only [removeUndefined, hv1, if_true]
          exact ih h
        · simp only [removeUndefined, hv1, if_false]
          simp [lookupKey, h1, ih h]

theorem lookupKey_removeUndefined_of_undef (l : List (String × JValue)) (k : String)
    (hnd : keysNodup l) (h : lookupKey l k = some JValue.jundef) :
    lookupKey (removeUndefined l) k = none := by
  induction l with
  | nil => simp [lookupKey] at h
  | cons hd tl ih =>
      obtain ⟨k1, v1⟩ := hd
      unfold keysNodup at hnd
      simp only [List.map_cons, List.nodup_cons] at hnd
      by_cases h1 : k1 = k
      · subst h1
        simp [lookupKey] at h
        subst h
        simp only [removeUndefined, if_pos rfl]
        apply lookupKey_eq_none_of_not_mem
        intro hmem
        exact hnd.1 ((List.Sublist.map Prod.fst (removeUndefined_sublist tl)).subset hmem)
      · simp only [lookupKey, h1, if_false] at h
        have htl := ih hnd.2 h
        by_cases hv1 : v1 = JValue.jundef
        · simp only [removeUndefined, hv1, if_true]
          exact htl
        · simp only [removeUndefined, hv1, if_false]
          simp [lookupKey, h1, htl]

theorem lookupKey_removeUndefined_of_none (l : List (String × JValue)) (k : String)
    (h : lookupKey l k = none) : lookupKey (removeUndefined l) k = none := by
  induction l with
  | nil => simp [removeUndefined, lookupKey]
  | cons hd tl ih =>
      obtain ⟨k1, v1⟩ := hd
      by_cases h1 : k1 = k
      · subst h1; simp [lookupKey] at h
      · simp only [lookupKey, h1, if_false] at h
        by_cases hv1 : v1 = JValue.jundef
        · simp only [removeUndefined, hv1, if_true]
          exact ih h
        · simp only [removeUndefined, hv1, if_false]
          simp [lookupKey, h1, ih h]

theorem lookupKey_applyPatch (patch : List (String × JValue))
    (hnd : keysNodup patch) :
    ∀ (base : List (String × JValue)) (k : String),
    lookupKey (applyPatch base patch) k =
      if hasKey patch k then lookupKey patch k else lookupKey base k := by
  induction patch with
  | nil => intro base k; simp [applyPatch, hasKey, lookupKey]
  | cons hd tl ih =>
      intro base k
      obtain ⟨k0, v0⟩ := hd
      have hnd2 : keysNodup tl := by
        unfold keysNodup at hnd ⊢
        simp only [List.map_cons, List.nodup_cons] at hnd
        exact hnd.2
      have hk0 : k0 ∉ tl.map Prod.fst := by
        unfold keysNodup at hnd
        simp only [List.map_cons, List.nodup_cons] at hnd
        exact hnd.1
      have step : applyPatch base ((k0, v0) :: tl) = applyPatch (setKey base k0 v0) tl := rfl
      rw [step, ih hnd2, lookupKey_setKey]
      by_cases he : k = k0
      · subst he
        have htl : lookupKey tl k = none := lookupKey_eq_none_of_not_mem tl k hk0
        have h1 : hasKey tl k = false := by unfold hasKey; rw [htl]; rfl
        have h2 : hasKey ((k, v0) :: tl) k = true := by
          unfold hasKey; simp [lookupKey]
        simp [h1, h2, lookupKey]
      · have hcons : hasKey ((k0, v0) :: tl) k = hasKey tl k := by
          unfold hasKey
          simp [lookupKey, Ne.symm he]
        have hlook : lookupKey ((k0, v0) :: tl) k = lookupKey tl k := by
          simp [lookupKey, Ne.symm he]
        rw [hcons, hlook]
        by_cases hk : hasKey tl k = true
        · simp [hk, he]
        · simp only [Bool.not_eq_true] at hk
          simp [hk, he]

theorem findRow_id (db : List SpeciesRow) (id : Nat) (r : SpeciesRow)
    (h : findRow db id = some r) : r.id = id := by
  induction db with
  | nil => simp [findRow] at h
  | cons hd tl ih =>
      by_cases h1 : hd.id = id
      · simp only [findRow, h1, if_true, Option.some.injEq] at h
        rw [← h]
        exact h1
      · simp only [findRow, h1, if_false] at h
        exact ih h

theorem findRow_updateRow (db : List SpeciesRow) (id : Nat) (r r' : SpeciesRow)
    (hr' : r'.id = id) (h : findRow db id = some r) :
    findRow (updateRow db id r') id = some r' := by
  induction db with
  | nil => simp [findRow] at h
  | cons hd tl ih =>
      by_cases h1 : hd.id = id
      · simp [updateRow, findRow, h1, hr']
      · simp only [findRow, h1, if_false] at h
        simp only [updateRow, List.map_cons, h1, if_false, findRow]
        exact ih h

theorem mem_updateRow (db : List SpeciesRow) (id : Nat) (r' x : SpeciesRow)
    (h : x ∈ updateRow db id r') : x = r' ∨ x ∈ db := by
  unfold updateRow at h
  rcases List.mem_map.mp h with ⟨y, hy, hxy⟩
  by_cases h1 : y.id = id
  · rw [h1] at hxy
    simp only [if_pos rfl] at hxy
    exact Or.inl hxy.symm
  · rw [if_neg h1] at hxy
    exact Or.inr (hxy ▸ hy)

theorem updateRow_updateRow (db : List SpeciesRow) (id : Nat) (a b : SpeciesRow)
    (ha : a.id = id) : updateRow (updateRow db id a) id b = updateRow db id b := by
  unfold updateRow
  rw [List.map_map]
  apply List.map_congr_left
  intro r _
  by_cases h1 : r.id = id
  · simp [h1, ha]
  · simp [h1]


theorem lookupKey_mem (l : List (String × JValue)) (k : String) (v : JValue)
    (h : lookupKey l k = some v) : (k, v) ∈ l := by
  induction l with
  | nil => simp [lookupKey] at h
  | cons hd tl ih =>
      obtain ⟨k1, v1⟩ := hd
      by_cases h1 : k1 = k
      · subst h1
        simp [lookupKey] at h
        simp [h]
      · simp only [lookupKey, h1, if_false] at h
        exact List.mem_cons_of_mem _ (ih h)

theorem keysNodup_publishPatch (d cur : List (String × JValue))
    (hnd : keysNodup d) : keysNodup (publishPatch d cur) :=
  keysNodup_removeUndefined _ (keysNodup_setKey _ _ _ (keysNodup_removeKey d _ hnd))

theorem getField_publish_merge (d cur : List (String × JValue))
    (hnd : keysNodup d) (hnu : ∀ kv ∈ d, kv.2 ≠ JValue.jundef) (k : String) :
    getField (applyPatch cur (publishPatch d cur)) k =
      if hasKey d k then getField d k else getField cur k := by
  have hndp := keysNodup_publishPatch d cur hnd
  unfold getField
  rw [lookupKey_applyPatch _ hndp]
  set X := if hasKey d "richContent" then getField d "richContent"
    else getField cur "richContent" with hX
  have hS : ∀ k2, lookupKey (setKey (removeKey d "richContent") "richContent" X) k2 =
      if k2 = "richContent" then some X else lookupKey (removeKey d "richContent") k2 :=
    fun k2 => lookupKey_setKey _ _ _ _
  have hSnd : keysNodup (setKey (removeKey d "richContent") "richContent" X) :=
    keysNodup_setKey _ _ _ (keysNodup_removeKey d _ hnd)
  by_cases hk : k = "richContent"
  · subst hk
    by_cases hdk : hasKey d "richContent"
    · obtain ⟨v, hv⟩ := Option.isSome_iff_exists.mp hdk
      have hvne : v ≠ JValue.jundef :=
        hnu ("richContent", v) (lookupKey_mem d "richContent" v hv)
      have hXv : X = v := by
        rw [hX, if_pos hdk]
        unfold getField
        rw [hv]
        rfl
      have hP : lookupKey (publishPatch d cur) "richContent" = some v := by
        unfold publishPatch
        rw [← hX]
        exact lookupKey_removeUndefined_of_some _ _ _
          (by rw [hS "richContent", if_pos rfl, hXv]) hvne
      rw [show hasKey (publishPatch d cur) "richContent" = true by
            unfold hasKey; rw [hP]; rfl]
      simp only [if_true, hdk, hP, hv]
    · have hXc : X = getField cur "richContent" := by rw [hX, if_neg hdk]
      by_cases hXu : X = JValue.jundef
      · have hP : lookupKey (publishPatch d cur) "richContent" = none := by
          unfold publishPatch
          rw [← hX]
          apply lookupKey_removeUndefined_of_undef _ _ hSnd
          rw [hS "richContent", if_pos rfl, hXu]
        rw [show hasKey (publishPatch d cur) "richContent" = false by
              unfold hasKey; rw [hP]; rfl]
        simp only [Bool.false_eq_true, if_false, hdk]
      · have hP : lookupKey (publishPatch d cur) "richContent" = some X := by
          unfold publishPatch
          rw [← hX]
          exact lookupKey_removeUndefined_of_some _ _ _
            (by rw [hS "richContent", if_pos rfl]) hXu
        rw [show hasKey (publishPatch d cur) "richContent" = true by
              unfold hasKey; rw [hP]; rfl]
        simp only [if_true, hdk, hP, Bool.false_eq_true, if_false]
        rw [hXc]
        unfold getField
        rfl
  · have hSk : lookupKey (setKey (removeKey d "richContent") "richContent" X) k =
        lookupKey d k := by
      rw [hS k, if_neg hk]
      exact lookupKey_removeKey_ne d _ k hk
    rcases hdv : lookupKey d k with _ | v
    · have hP : lookupKey (publishPatch d cur) k = none := by
        unfold publishPatch
        rw [← hX]
        apply lookupKey_removeUndefined_of_none
        rw [hSk, hdv]
      rw [show hasKey (publishPatch d cur) k = false by
            unfold hasKey; rw [hP]; rfl]
      rw [show hasKey d k = false by unfold hasKey; rw [hdv]; rfl]
      simp
    · have hvne : v ≠ JValue.jundef := hnu (k, v) (lookupKey_mem d k v hdv)
      have hP : lookupKey (publishPatch d cur) k = some v := by
        unfold publishPatch
        rw [← hX]
        exact lookupKey_removeUndefined_of_some _ _ _ (by rw [hSk, hdv]) hvne
      rw [show hasKey (publishPatch d cur) k = true by
            unfold hasKey; rw [hP]; rfl]
      rw [show hasKey d k = true by unfold hasKey; rw [hdv]; rfl]
      simp only [if_true, hP, hdv]

theorem publishStore_absent (db : List SpeciesRow) (id now : Nat)
    (h : findRow db id = none) :
    publishStore db id now = Except.error PublishError.notFound := by
  unfold publishStore
  rw [h]

theorem publishStore_draft (db : List SpeciesRow) (id now : Nat)
    (d : List (String × JValue)) (r : SpeciesRow)
    (hfind : findRow db id = some r) (hd : r.draftData = some d) :
    publishStore db id now =
      Except.ok (publishedRow r d now, updateRow db id (publishedRow r d now)) := by
  unfold publishStore publishedRow publishPatch
  rw [hfind]
  simp only [hd]

theorem publishStore_promote (db : List SpeciesRow) (id now : Nat)
    (r : SpeciesRow) (hfind : findRow db id = some r)
    (hd : r.draftData = none) (hs : r.status = "draft") :
    publishStore db id now =
      Except.ok ({ r with status := "published", publishedAt := some now, updatedAt := now },
        updateRow db id { r with status := "published", publishedAt := some now, updatedAt := now }) := by
  unfold publishStore
  rw [hfind]
  simp [hd, hs]

theorem publishStore_nothing (db : List SpeciesRow) (id now : Nat)
    (r : SpeciesRow) (hfind : findRow db id = some r)
    (hd : r.draftData = none) (hs : r.status ≠ "draft") :
    publishStore db id now = Except.error PublishError.invalidState := by
  unfold publishStore
  rw [hfind]
  simp only [hd, hs, if_false]

/-- Claim C2: for every existing record whose draftData is present, publish
applies exactly the draft's key set over the published fields (explicit
nulls applied, not dropped by the undefined-cleanup), sets
status=published, publishedAt and updatedAt, and clears draftData, hasDraft
and draftCreatedAt, all in the one row written by the single update. -/
theorem claim_c2_publish_applies_draft (db : List SpeciesRow) (id now : Nat)
    (d : List (String × JValue)) (r : SpeciesRow)
    (hfind : findRow db id = some r) (hd : r.draftData = some d)
    (hwf : wfDraft d) :
    ∃ r', publishStore db id now = Except.ok (r', updateRow db id r') ∧
      (∀ k, getField r'.content k =
        if hasKey d k then getField d k else getField r.content k) ∧
      r'.status = "published" ∧ r'.publishedAt = some now ∧ r'.updatedAt = now ∧
      r'.draftData = none ∧ r'.hasDraft = false ∧ r'.draftCreatedAt = none := by
  refine ⟨publishedRow r d now, publishStore_draft db id now d r hfind hd,
    ?_, rfl, rfl, rfl, rfl, rfl, rfl⟩
  intro k
  exact getField_publish_merge d r.content hwf.1 hwf.2 k

/-- Witness for C2 at a concrete store: a draft with an override and an
explicit null publishes as the claim states. -/
theorem claim_c2_witness :
    findRow [draftRow] 1 = some draftRow ∧ draftRow.draftData = some draftOverlay ∧
    wfDraft draftOverlay ∧
    (∃ r', publishStore [draftRow] 1 9 = Except.ok (r', updateRow [draftRow] 1 r') ∧
      (∀ k, getField r'.content k =
        if hasKey draftOverlay k then getField draftOverlay k
        else getField draftRow.content k) ∧
      r'.status = "published" ∧ r'.publishedAt = some 9 ∧ r'.updatedAt = 9 ∧
      r'.draftData = none ∧ r'.hasDraft = false ∧ r'.draftCreatedAt = none) :=
  ⟨by decide, by decide, by decide,
    claim_c2_publish_applies_draft [draftRow] 1 9 draftOverlay draftRow
      (by decide) (by decide) (by decide)⟩

/-- Claim C6: publish fails with NotFound iff the record is absent, fails
with InvalidState iff the record exists with no draftData and a non-draft
status, succeeds in all other cases, and an immediate second publish after
any successful publish (no new draft) fails with InvalidState. -/
theorem claim_c6_publish_error_cases (db : List SpeciesRow) (id now : Nat) :
    (publishStore db id now = Except.error PublishError.notFound ↔ findRow db id = none) ∧
    (publishStore db id now = Except.error PublishError.invalidState ↔
      ∃ r, findRow db id = some r ∧ r.draftData = none ∧ r.status ≠ "draft") ∧
    ((∃ pr, publishStore db id now = Except.ok pr) ↔
      ∃ r, findRow db id = some r ∧ (r.draftData ≠ none ∨ r.status = "draft")) ∧
    (∀ r' db' now2, publishStore db id now = Except.ok (r', db') →
      publishStore db' id now2 = Except.error PublishError.invalidState) := by
  rcases hf : findRow db id with _ | r
  · have habs := publishStore_absent db id now hf
    refine ⟨⟨fun _ => rfl, fun _ => habs⟩, ?_, ?_, ?_⟩
    · constructor
      · intro h
        rw [habs] at h
        simp at h
      · rintro ⟨r, hr, -, -⟩
        simp at hr
    · constructor
      · rintro ⟨pr, hpr⟩
        rw [habs] at hpr
        simp at hpr
      · rintro ⟨r, hr, -⟩
        simp at hr
    · intro r' db' now2 h
      rw [habs] at h
      simp at h
  · have hid : r.id = id := findRow_id db id r hf
    rcases hdd : r.draftData with _ | d
    · by_cases hs : r.status = "draft"
      · have hok := publishStore_promote db id now r hf hdd hs
        refine ⟨?_, ?_, ?_, ?_⟩
        · constructor
          · intro h
            rw [hok] at h
            simp at h
          · intro h
            simp at h
        · constructor
          · intro h
            rw [hok] at h
            simp at h
          · rintro ⟨r0, hr0, -, hs0⟩
            injection hr0 with he
            subst he
            exact absurd hs hs0
        · exact ⟨fun _ => ⟨r, rfl, Or.inr hs⟩, fun _ => ⟨_, hok⟩⟩
        · intro r' db' now2 h
          rw [hok] at h
          cases h
          apply publishStore_nothing _ id now2
            { r with status := "published", publishedAt := some now, updatedAt := now }
          · exact findRow_updateRow db id r _ (by simpa using hid) hf
          · simpa using hdd
          · intro hcon
            exact (by decide : ("published" : String) ≠ "draft") hcon
      · have herr := publishStore_nothing db id now r hf hdd hs
        refine ⟨?_, ?_, ?_, ?_⟩
        · constructor
          · intro h
            rw [herr] at h
            simp at h
          · intro h
            simp at h
        · exact ⟨fun _ => ⟨r, rfl, hdd, hs⟩, fun _ => herr⟩
        · constructor
          · rintro ⟨pr, hpr⟩
            rw [herr] at hpr
            simp at hpr
          · rintro ⟨r0, hr0, hor⟩
            injection hr0 with he
            subst he
            rcases hor with hne | hst
            · exact absurd hdd hne
            · exact absurd hst hs
        · intro r' db' now2 h
          rw [herr] at h
          simp at h
    · have hok := publishStore_draft db id now d r hf hdd
      refine ⟨?_, ?_, ?_, ?_⟩
      · constructor
        · intro h
          rw [hok] at h
          simp at h
        · intro h
          simp at h
      · constructor
        · intro h
          rw [hok] at h
          simp at h
        · rintro ⟨r0, hr0, hnone, -⟩
          injection hr0 with he
          subst he
          rw [hdd] at hnone
          simp at hnone
      · refine ⟨fun _ => ⟨r, rfl, Or.inl (by rw [hdd]; simp)⟩, fun _ => ⟨_, hok⟩⟩
      · intro r' db' now2 h
        rw [hok] at h
        cases h
        apply publishStore_nothing _ id now2 (publishedRow r d now)
        · exact findRow_updateRow db id r _ (by simpa [publishedRow] using hid) hf
        · rfl
        · intro hcon
          exact (by decide : ("published" : String) ≠ "draft") hcon

/-- Witness for C6: after a draft-backed publish, an immediate second
publish with no new draft fails with InvalidState. -/
theorem claim_c6_witness :
    publishStore (updateRow [draftRow] 1 (publishedRow draftRow draftOverlay 9)) 1 10 =
      Except.error PublishError.invalidState :=
  (claim_c6_publish_error_cases [draftRow] 1 9).2.2.2
    (publishedRow draftRow draftOverlay 9)
    (updateRow [draftRow] 1 (publishedRow draftRow draftOverlay 9)) 10
    (publishStore_draft [draftRow] 1 9 draftOverlay draftRow (by decide) (by decide))

/-- Counterexample to C5 as stated: on a record whose draft overlay already
holds commonName, two patches on other keys ("a" and "b") merge into that
overlay, and publish applies the pre-existing draft key as well -- the
untouched field commonName does not keep its prior published value "Puma"
but is published as the pending draft value "Puma concolor". -/
theorem claim_c5_counterexample :
    (Except.map (fun p => getField p.content "a")
      (draftDraftPublish [draftRow] 1 "a" (JValue.jnum 1) "b" (JValue.jnum 2) 6 7 8)).toOption =
      some (JValue.jnum 1) ∧
    (Except.map (fun p => getField p.content "b")
      (draftDraftPublish [draftRow] 1 "a" (JValue.jnum 1) "b" (JValue.jnum 2) 6 7 8)).toOption =
      some (JValue.jnum 2) ∧
    ("commonName" : String) ≠ "a" ∧ ("commonName" : String) ≠ "b" ∧
    getField draftRow.content "commonName" = JValue.jstr "Puma" ∧
    (Except.map (fun p => getField p.content "commonName")
      (draftDraftPublish [draftRow] 1 "a" (JValue.jnum 1) "b" (JValue.jnum 2) 6 7 8)).toOption =
      some (JValue.jstr "Puma concolor") := by
  decide

/-- Claim C5 (amended): on a record with no pending draft, createDraft of
one key, createDraft of a second key, then publish yields a published
record with both draft values applied and every untouched field keeping
its prior published value (shallow key-level merge).  With a draft already
pending, the patches merge into it and publish also applies the
pre-existing draft keys over their published values. -/
theorem claim_c5_overlay_merge (db : List SpeciesRow) (id t1 t2 t3 : Nat)
    (ka kb : String) (v1 v2 : JValue) (r : SpeciesRow)
    (hfind : findRow db id = some r) (hclean : r.draftData = none)
    (hne : ka ≠ kb) (hv1 : v1 ≠ JValue.jundef) (hv2 : v2 ≠ JValue.jundef) :
    ∃ r1 db1 r2 db2 p db3,
      createDraft db id [(ka, v1)] t1 = Except.ok (r1, db1) ∧
      createDraft db1 id [(kb, v2)] t2 = Except.ok (r2, db2) ∧
      publishStore db2 id t3 = Except.ok (p, db3) ∧
      getField p.content ka = v1 ∧ getField p.content kb = v2 ∧
      p.status = "published" ∧ p.hasDraft = false ∧ p.draftData = none ∧
      (∀ k, k ≠ ka → k ≠ kb → getField p.content k = getField r.content k) := by
  have hid : r.id = id := findRow_id db id r hfind
  set R1 : SpeciesRow :=
    { r with
      draftData := some [(ka, v1)], hasDraft := true,
      draftCreatedAt := some (r.draftCreatedAt.getD t1), updatedAt := t1 } with hR1
  have e1 : createDraft db id [(ka, v1)] t1 = Except.ok (R1, updateRow db id R1) := by
    unfold createDraft
    rw [hfind]
    simp only [hclean, hR1, Option.getD_none]
    rfl
  have hfind1 : findRow (updateRow db id R1) id = some R1 :=
    findRow_updateRow db id r R1 (by simpa [hR1] using hid) hfind
  set D2 : List (String × JValue) := [(ka, v1), (kb, v2)] with hD2
  set R2 : SpeciesRow :=
    { R1 with
      draftData := some D2, hasDraft := true,
      draftCreatedAt := some (r.draftCreatedAt.getD t1), updatedAt := t2 } with hR2
  have e2 : createDraft (updateRow db id R1) id [(kb, v2)] t2 =
      Except.ok (R2, updateRow (updateRow db id R1) id R2) := by
    unfold createDraft
    rw [hfind1]
    simp only [hR1, hR2, hD2, Option.getD_some, applyPatch, List.foldl, setKey, hne,
      if_false, if_neg hne]
  have hfind2 : findRow (updateRow (updateRow db id R1) id R2) id = some R2 :=
    findRow_updateRow (updateRow db id R1) id R1 R2 (by simpa [hR2, hR1] using hid) hfind1
  have hR2d : R2.draftData = some D2 := rfl
  have e3 := publishStore_draft (updateRow (updateRow db id R1) id R2) id t3 D2 R2 hfind2 hR2d
  have hndD2 : keysNodup D2 := by
    rw [hD2]
    unfold keysNodup
    simp [hne]
  have hnuD2 : ∀ kv ∈ D2, kv.2 ≠ JValue.jundef := by
    rw [hD2]
    intro kv hkv
    simp only [List.mem_cons, List.not_mem_nil, or_false] at hkv
    rcases hkv with h | h
    · rw [h]; exact hv1
    · rw [h]; exact hv2
  have hmerge := fun k => getField_publish_merge D2 R2.content hndD2 hnuD2 k
  have hcontent : R2.content = r.content := rfl
  refine ⟨R1, updateRow db id R1, R2, updateRow (updateRow db id R1) id R2,
    publishedRow R2 D2 t3, _, e1, e2, e3, ?_, ?_, rfl, rfl, rfl, ?_⟩
  · show getField (applyPatch R2.content (publishPatch D2 R2.content)) ka = v1
    rw [hmerge ka, hD2]
    simp [hasKey, lookupKey, getField]
  · show getField (applyPatch R2.content (publishPatch D2 R2.content)) kb = v2
    rw [hmerge kb, hD2]
    simp [hasKey, lookupKey, getField, hne]
  · intro k hka hkb
    show getField (applyPatch R2.content (publishPatch D2 R2.content)) k = getField r.content k
    rw [hmerge k, hD2]
    simp [hasKey, lookupKey, Ne.symm hka, Ne.symm hkb, hcontent]

/-- Witness for C5 at a concrete store: two successive one-key drafts on a
clean published row publish to both values with other fields unchanged. -/
theorem claim_c5_witness :
    findRow [cleanRow] 1 = some cleanRow ∧ cleanRow.draftData = none ∧
    ("a" : String) ≠ "b" ∧ JValue.jnum 1 ≠ JValue.jundef ∧
    JValue.jnum 2 ≠ JValue.jundef ∧
    (∃ r1 db1 r2 db2 p db3,
      createDraft [cleanRow] 1 [("a", JValue.jnum 1)] 6 = Except.ok (r1, db1) ∧
      createDraft db1 1 [("b", JValue.jnum 2)] 7 = Except.ok (r2, db2) ∧
      publishStore db2 1 8 = Except.ok (p, db3) ∧
      getField p.content "a" = JValue.jnum 1 ∧
      getField p.content "b" = JValue.jnum 2 ∧
      p.status = "published" ∧ p.hasDraft = false ∧ p.draftData = none ∧
      (∀ k, k ≠ "a" → k ≠ "b" →
        getField p.content k = getField cleanRow.content k)) :=
  ⟨by decide, by decide, by decide, by decide, by decide,
    claim_c5_overlay_merge [cleanRow] 1 6 7 8 "a" "b"
      (JValue.jnum 1) (JValue.jnum 2) cleanRow
      (by decide) (by decide) (by decide) (by decide) (by decide)⟩

/-- Claim C9: the user update fails with Forbidden exactly when it includes
a role change (truthy role in the DTO) and either the target is the caller
or the caller is not admin; when neither holds the role update proceeds
against the local store. -/
theorem claim_c9_user_role_auth (db : List UserRow) (id : Nat) (dto : UpdateUserDto)
    (cuid crole : String) (u : UserRow) (hfind : findUser db id = some u) :
    (usersUpdate db id dto cuid crole = Except.error UserError.forbidden ↔
      roleTruthy dto = true ∧ (u.clerkId = cuid ∨ crole ≠ "admin")) ∧
    (roleTruthy dto = true → u.clerkId ≠ cuid → crole = "admin" →
      usersUpdate db id dto cuid crole =
        Except.ok (applyUserDto u dto, updateUserRow db id (applyUserDto u dto))) := by
  unfold usersUpdate
  rw [hfind]
  rcases hrt : roleTruthy dto with _ | _
  · constructor
    · simp [hrt]
    · intro habs
      simp at habs
  · by_cases hself : u.clerkId = cuid
    · constructor
      · simp [hrt, hself]
      · intro _ hne
        exact absurd hself hne
    · by_cases hadmin : crole = "admin"
      · constructor
        · simp [hrt, hself, hadmin]
        · intro _ _ _
          simp [hrt, hself, hadmin]
      · constructor
        · simp [hrt, hself, hadmin]
        · intro _ _ hadm
          exact absurd hadm hadmin

/-- Witness for C9: an admin caller changing another user's role succeeds
against the local store; the forbidden-iff holds at the same instance. -/
theorem claim_c9_witness :
    findUser [aliceUser] 1 = some aliceUser ∧
    (usersUpdate [aliceUser] 1 { role := some "admin" } "clerk_bob" "admin" =
        Except.error UserError.forbidden ↔
      roleTruthy { role := some "admin" } = true ∧
        (aliceUser.clerkId = "clerk_bob" ∨ ("admin" : String) ≠ "admin")) ∧
    usersUpdate [aliceUser] 1 { role := some "admin" } "clerk_bob" "admin" =
      Except.ok (applyUserDto aliceUser { role := some "admin" },
        updateUserRow [aliceUser] 1 (applyUserDto aliceUser { role := some "admin" })) := by
  have h := claim_c9_user_role_auth [aliceUser] 1 { role := some "admin" }
    "clerk_bob" "admin" aliceUser (by decide)
  exact ⟨by decide, h.1, h.2 (by decide) (by decide) rfl⟩

/-- Claim C10: a status value outside the enum (e.g. misspelled) makes
findAll drop the status filter entirely, returning records of every status,
identical to a call with no status filter at all. -/
theorem claim_c10_invalid_status_drops_filter (db : List SpeciesRow)
    (p : FindAllParams) (s2 : String) (hs : p.status = some s2)
    (henum : inEnumStatus s2 = false) :
    findAll db p = findAll db { p with status := none } := by
  unfold findAll
  have hrm : rowMatches p.status p.mainGroup p.search =
      rowMatches none p.mainGroup p.search := by
    funext r
    unfold rowMatches statusCond
    rw [hs]
    simp [henum]
  rw [hrm]

/-- Witness for C10: a misspelled status returns draft and published rows
alike, exactly as the unfiltered call does. -/
theorem claim_c10_witness :
    ({ status := some "publsihed" } : FindAllParams).status = some "publsihed" ∧
    inEnumStatus "publsihed" = false ∧
    findAll [unpublishedRow, cleanRow] { status := some "publsihed" } =
      findAll [unpublishedRow, cleanRow] { status := none } :=
  ⟨rfl, by decide,
    claim_c10_invalid_status_drops_filter [unpublishedRow, cleanRow]
      { status := some "publsihed" } "publsihed" rfl (by decide)⟩

/-- Counterexample to C1 as stated: a published row with a pending draft is
returned by the public findAll with its draftData column still present. -/
theorem claim_c1_counterexample :
    ¬ (∀ r ∈ (findAll [draftRow] { status := some "published" }).data,
        r.draftData = none) := by
  decide

/-- Claim C1 (amended): public-path reads never apply the draft overlay —
rows returned by findAll with status=published are stored rows, unmodified
and published; findById with includeDraft=false returns the stored row
unmodified; findBySlug returns the stored row unmodified.  The raw
draftData column, however, is carried through in the returned rows. -/
theorem claim_c1_public_reads_no_overlay (db : List SpeciesRow)
    (p : FindAllParams) (hp : p.status = some "published") :
    (∀ r ∈ (findAll db p).data, r ∈ db ∧ r.status = "published") ∧
    (∀ id2, findById db id2 false = findRow db id2) ∧
    (∀ sl r, findBySlug db sl = some r → r ∈ db ∧ r.slug = sl) := by
  refine ⟨?_, ?_, ?_⟩
  · intro r hr
    have hsub : (((List.insertionSort createdGe
        (db.filter (rowMatches p.status p.mainGroup p.search))).drop
          ((p.page - 1) * p.limit)).take p.limit).Sublist
        (List.insertionSort createdGe
          (db.filter (rowMatches p.status p.mainGroup p.search))) :=
      (List.take_sublist _ _).trans (List.drop_sublist _ _)
    have h1 : r ∈ List.insertionSort createdGe
        (db.filter (rowMatches p.status p.mainGroup p.search)) :=
      hsub.subset hr
    have h2 : r ∈ db.filter (rowMatches p.status p.mainGroup p.search) :=
      (List.perm_insertionSort createdGe _).mem_iff.mp h1
    have h3 := List.mem_filter.mp h2
    refine ⟨h3.1, ?_⟩
    have hm := h3.2
    unfold rowMatches at hm
    simp only [Bool.and_eq_true] at hm
    have hsc := hm.1.1
    rw [hp] at hsc
    simp only [statusCond] at hsc
    rw [show inEnumStatus "published" = true from by decide] at hsc
    simp only [if_true] at hsc
    exact beq_iff_eq.mp hsc
  · intro id2
    unfold findById
    rcases hfr : findRow db id2 with _ | r
    · rfl
    · obtain ⟨i, sl2, st, ca, ua, pa, dd, hdb, dca, ct⟩ := r
      rcases dd with _ | d
      · rfl
      · simp
  · intro sl r hr
    unfold findBySlug at hr
    induction db with
    | nil => simp [findRowBySlug] at hr
    | cons hd tl ih =>
        by_cases h : hd.slug = sl
        · simp [findRowBySlug, h] at hr
          subst hr
          exact ⟨List.mem_cons_self _ _, h⟩
        · simp only [findRowBySlug, h, if_false] at hr
          rcases ih hr with ⟨hmem, hslug⟩
          exact ⟨List.mem_cons_of_mem _ hmem, hslug⟩

/-- Witness for C1 (amended) on a store whose one published row carries a
draft: the returned rows are stored rows with no overlay applied. -/
theorem claim_c1_witness :
    ({ status := some "published" } : FindAllParams).status = some "published" ∧
    (∀ r ∈ (findAll [draftRow] { status := some "published" }).data,
      r ∈ [draftRow] ∧ r.status = "published") ∧
    (∀ id2, findById [draftRow] id2 false = findRow [draftRow] id2) ∧
    (∀ sl r, findBySlug [draftRow] sl = some r → r ∈ [draftRow] ∧ r.slug = sl) :=
  ⟨rfl, claim_c1_public_reads_no_overlay [draftRow] { status := some "published" } rfl⟩

theorem findRow_mem (db : List SpeciesRow) (id : Nat) (r : SpeciesRow)
    (h : findRow db id = some r) : r ∈ db := by
  induction db with
  | nil => simp [findRow] at h
  | cons hd tl ih =>
      by_cases h1 : hd.id = id
      · simp [findRow, h1] at h
        subst h
        exact List.mem_cons_self _ _
      · simp only [findRow, h1, if_false] at h
        exact List.mem_cons_of_mem _ (ih h)

/-- Counterexample to C3 as stated: the raw update passthrough can set
draftData without hasDraft, breaking the invariant on the stored record. -/
theorem claim_c3_counterexample :
    ¬ (∀ r ∈ (update [cleanRow] 1 draftOnlyUpdate 6).2, draftInvariant r) := by
  decide

/-- Claim C3 (amended): the invariant hasDraft == (draftData != null) is
established by createDraft, discardDraft and publish on every stored row;
create and update are raw passthroughs, so they preserve it only when the
caller's data itself respects it — update when it touches neither draft
field, create when the inserted row satisfies it. -/
theorem claim_c3_draft_invariant (db : List SpeciesRow) (id now : Nat) :
    (∀ patch r' db', createDraft db id patch now = Except.ok (r', db') →
      (∀ r ∈ db, draftInvariant r) → ∀ r ∈ db', draftInvariant r) ∧
    ((∀ r ∈ db, draftInvariant r) → ∀ r ∈ (discardDraft db id now).2, draftInvariant r) ∧
    (∀ pr, publishStore db id now = Except.ok pr →
      (∀ r ∈ db, draftInvariant r) → ∀ r ∈ pr.2, draftInvariant r) ∧
    (∀ u, u.draftData = none → u.hasDraft = none →
      (∀ r ∈ db, draftInvariant r) → ∀ r ∈ (update db id u now).2, draftInvariant r) ∧
    (∀ rnew, draftInvariant rnew → (∀ r ∈ db, draftInvariant r) →
      ∀ r ∈ (create db rnew).2, draftInvariant r) := by
  refine ⟨?_, ?_, ?_, ?_, ?_⟩
  · intro patch r' db' h hall r hr
    unfold createDraft at h
    rcases hfr : findRow db id with _ | cur
    · rw [hfr] at h
      simp at h
    · rw [hfr] at h
      cases h
      rcases mem_updateRow db id _ r hr with he | hm
      · subst he
        unfold draftInvariant
        rfl
      · exact hall r hm
  · intro hall r hr
    unfold discardDraft at hr
    rcases hfr : findRow db id with _ | cur
    · rw [hfr] at hr
      exact hall r hr
    · rw [hfr] at hr
      rcases mem_updateRow db id _ r hr with he | hm
      · subst he
        unfold draftInvariant
        rfl
      · exact hall r hm
  · intro pr h hall r hr
    rcases hfr : findRow db id with _ | cur
    · rw [publishStore_absent db id now hfr] at h
      simp at h
    · rcases hdd : cur.draftData with _ | d
      · by_cases hs : cur.status = "draft"
        · rw [publishStore_promote db id now cur hfr hdd hs] at h
          cases h
          rcases mem_updateRow db id _ r hr with he | hm
          · subst he
            have hcur := hall cur (findRow_mem db id cur hfr)
            unfold draftInvariant at hcur ⊢
            simpa using hcur
          · exact hall r hm
        · rw [publishStore_nothing db id now cur hfr hdd hs] at h
          simp at h
      · rw [publishStore_draft db id now d cur hfr hdd] at h
        cases h
        rcases mem_updateRow db id _ r hr with he | hm
        · subst he
          unfold draftInvariant
          rfl
        · exact hall r hm
  · intro u hud huh hall r hr
    unfold update at hr
    rcases hfr : findRow db id with _ | cur
    · rw [hfr] at hr
      exact hall r hr
    · rw [hfr] at hr
      rcases mem_updateRow db id _ r hr with he | hm
      · subst he
        have hcur := hall cur (findRow_mem db id cur hfr)
        unfold draftInvariant at hcur ⊢
        unfold applySet
        simp [hud, huh]
        exact hcur
      · exact hall r hm
  · intro rnew hnew hall r hr
    unfold create at hr
    rcases List.mem_append.mp hr with hm | hm
    · exact hall r hm
    · rw [List.mem_singleton] at hm
      subst hm
      exact hnew

/-- Witness for C3 (amended) at concrete stores: discardDraft and a
draft-field-free update preserve the invariant. -/
theorem claim_c3_witness :
    (∀ r ∈ [draftRow], draftInvariant r) ∧
    (∀ r ∈ (discardDraft [draftRow] 1 7).2, draftInvariant r) ∧
    (∀ r ∈ (update [draftRow] 1
        { content := [("commonName", JValue.jstr "Y")] } 7).2, draftInvariant r) :=
  ⟨by decide,
    (claim_c3_draft_invariant [draftRow] 1 7).2.1 (by decide),
    (claim_c3_draft_invariant [draftRow] 1 7).2.2.2.1
      { content := [("commonName", JValue.jstr "Y")] } rfl rfl (by decide)⟩

/-- Counterexample to C8 as stated: discardDraft always bumps updatedAt, so
discarding twice (at a later time) leaves a different stored state than
discarding once. -/
theorem claim_c8_counterexample :
    (discardDraft (discardDraft [draftRow] 1 1).2 1 2).2 ≠
      (discardDraft [draftRow] 1 1).2 := by
  decide

/-- Claim C8 (amended): discardDraft is idempotent up to the updatedAt
timestamp — a second discard equals a single discard performed at the
second call's time; and with no draft present it changes nothing but
updatedAt, returning normally rather than erroring. -/
theorem claim_c8_discard_idempotent (db : List SpeciesRow) (id t1 t2 : Nat) :
    discardDraft (discardDraft db id t1).2 id t2 = discardDraft db id t2 ∧
    (∀ r, findRow db id = some r → r.draftData = none → r.hasDraft = false →
      r.draftCreatedAt = none →
      discardDraft db id t1 = (some { r with updatedAt := t1 },
        updateRow db id { r with updatedAt := t1 })) := by
  constructor
  · rcases hfr : findRow db id with _ | cur
    · rw [show (discardDraft db id t1).2 = db from by unfold discardDraft; rw [hfr]]
    · have hid : cur.id = id := findRow_id db id cur hfr
      have h1 : discardDraft db id t1 =
          (some { cur with
            draftData := none, hasDraft := false,
            draftCreatedAt := none, updatedAt := t1 },
          updateRow db id { cur with
            draftData := none, hasDraft := false,
            draftCreatedAt := none, updatedAt := t1 }) := by
        unfold discardDraft
        rw [hfr]
      have hf2 : findRow (updateRow db id { cur with
          draftData := none, hasDraft := false,
          draftCreatedAt := none, updatedAt := t1 }) id =
          some { cur with
            draftData := none, hasDraft := false,
            draftCreatedAt := none, updatedAt := t1 } :=
        findRow_updateRow db id cur _ (by simpa using hid) hfr
      have h2 : discardDraft (updateRow db id { cur with
          draftData := none, hasDraft := false,
          draftCreatedAt := none, updatedAt := t1 }) id t2 =
          (some { cur with
            draftData := none, hasDraft := false,
            draftCreatedAt := none, updatedAt := t2 },
          updateRow (updateRow db id { cur with
            draftData := none, hasDraft := false,
            draftCreatedAt := none, updatedAt := t1 }) id { cur with
            draftData := none, hasDraft := false,
            draftCreatedAt := none, updatedAt := t2 }) := by
        unfold discardDraft
        rw [hf2]
      rw [h1]
      show discardDraft (updateRow db id { cur with
          draftData := none, hasDraft := false,
          draftCreatedAt := none, updatedAt := t1 }) id t2 = discardDraft db id t2
      rw [h2]
      rw [updateRow_updateRow db id _ _ (by simpa using hid)]
      unfold discardDraft
      rw [hfr]
  · intro r hfr hdd hhd hdca
    unfold discardDraft
    rw [hfr]
    have hrow : ({ r with
        draftData := none, hasDraft := false,
        draftCreatedAt := none, updatedAt := t1 } : SpeciesRow) =
        { r with updatedAt := t1 } := by
      obtain ⟨i, sl2, st, ca, ua, pa, dd, hd2, dca, ct⟩ := r
      simp only at hdd hhd hdca
      subst hdd
      subst hhd
      subst hdca
      rfl
    show (some { r with
        draftData := none, hasDraft := false,
        draftCreatedAt := none, updatedAt := t1 },
      updateRow db id { r with
        draftData := none, hasDraft := false,
        draftCreatedAt := none, updatedAt := t1 }) =
      (some { r with updatedAt := t1 }, updateRow db id { r with updatedAt := t1 })
    rw [hrow]

/-- Witness for C8 (amended): discarding on a row with no draft returns
normally and touches only updatedAt. -/
theorem claim_c8_witness :
    findRow [cleanRow] 1 = some cleanRow ∧ cleanRow.draftData = none ∧
    cleanRow.hasDraft = false ∧ cleanRow.draftCreatedAt = none ∧
    discardDraft [cleanRow] 1 9 = (some { cleanRow with updatedAt := 9 },
      updateRow [cleanRow] 1 { cleanRow with updatedAt := 9 }) :=
  ⟨rfl, rfl, rfl, rfl,
    (claim_c8_discard_idempotent [cleanRow] 1 9 0).2 cleanRow rfl rfl rfl rfl⟩

/-- Counterexample to C7 as stated: two records with equal createdAt come
back in the underlying snapshot order (here id-descending), not id-ascending
-- the query orders by createdAt only, with no explicit tie-break. -/
theorem claim_c7_counterexample :
    (findAll [tieRowHigh, tieRowLow] {}).data.map SpeciesRow.id = [2, 1] ∧
    tieRowHigh.createdAt = tieRowLow.createdAt := by
  decide

/-- Claim C7 (amended): with no sort selection available, every findAll page
is ordered by createdAt descending; the order among equal-createdAt rows is
inherited from the underlying row order (no explicit id tie-break). -/
theorem claim_c7_default_order (db : List SpeciesRow) (p : FindAllParams) :
    List.Sorted createdGe (findAll db p).data := by
  have hsorted : List.Sorted createdGe (List.insertionSort createdGe
      (db.filter (rowMatches p.status p.mainGroup p.search))) :=
    List.sorted_insertionSort createdGe _
  have hsub : (((List.insertionSort createdGe
      (db.filter (rowMatches p.status p.mainGroup p.search))).drop
        ((p.page - 1) * p.limit)).take p.limit).Sublist
      (List.insertionSort createdGe
        (db.filter (rowMatches p.status p.mainGroup p.search))) :=
    (List.take_sublist _ _).trans (List.drop_sublist _ _)
  exact List.Pairwise.sublist hsub hsorted

theorem ceilDivNat_zero (k : Nat) : ceilDivNat 0 k = 0 := by
  unfold ceilDivNat
  rcases k with _ | k2
  · rfl
  · exact Nat.div_eq_of_lt (by omega)

theorem ceilDivNat_step (k len n : Nat) (hk : 0 < k)
    (h : ceilDivNat len k = n + 1) : ceilDivNat (len - k) k = n := by
  unfold ceilDivNat at h ⊢
  by_cases hle : len ≤ k
  · rcases Nat.eq_zero_or_pos len with hz | hpos
    · subst hz
      have h0 : (0 + k - 1) / k = 0 := Nat.div_eq_of_lt (by omega)
      omega
    · have hlow : 1 ≤ (len + k - 1) / k := by
        rw [Nat.le_div_iff_mul_le hk]
        omega
      have hub : (len + k - 1) / k < 2 := by
        apply Nat.div_lt_of_lt_mul
        omega
      have hn : n = 0 := by omega
      have hz2 : len - k = 0 := by omega
      rw [hz2, hn]
      exact Nat.div_eq_of_lt (by omega)
  · have h1 : len + k - 1 = (len - 1) + k := by omega
    rw [h1, Nat.add_div_right _ hk] at h
    have h2 : len - k + k - 1 = len - 1 := by omega
    rw [h2]
    omega

theorem chunksJoin (k : Nat) (hk : 0 < k) :
    ∀ (n : Nat) (l : List SpeciesRow), ceilDivNat l.length k = n →
    (List.range n).flatMap (fun i => (l.drop (i * k)).take k) = l := by
  intro n
  induction n with
  | zero =>
      intro l hl
      have hlen : l.length = 0 := by
        by_contra hne
        have hpos : 1 ≤ l.length := Nat.one_le_iff_ne_zero.mpr hne
        have hlow : 1 ≤ (l.length + k - 1) / k := by
          rw [Nat.le_div_iff_mul_le hk]
          omega
        unfold ceilDivNat at hl
        omega
      rw [List.length_eq_zero] at hlen
      subst hlen
      rfl
  | succ n ih =>
      intro l hl
      rw [List.range_succ_eq_map, List.flatMap_cons, List.flatMap_map]
      have hfun : (fun a => (l.drop (Nat.succ a * k)).take k) =
          (fun a => ((l.drop k).drop (a * k)).take k) := by
        funext a
        rw [Nat.succ_mul, Nat.add_comm, ← List.drop_drop]
      have hlen2 : ceilDivNat (l.drop k).length k = n := by
        rw [List.length_drop]
        exact ceilDivNat_step k l.length n hk hl
      calc (l.drop (0 * k)).take k ++
            (List.range n).flatMap (fun a => (l.drop (Nat.succ a * k)).take k)
          = l.take k ++ (List.range n).flatMap
              (fun a => ((l.drop k).drop (a * k)).take k) := by
            rw [hfun]
            simp
        _ = l.take k ++ l.drop k := by rw [ih (l.drop k) hlen2]
        _ = l := List.take_append_drop k l

/-- Counterexample to C4 as stated: with one matching record, page=2 and
limit=1 (both in range), the windowed count comes from an empty page, so
findAll reports pagination.total = 0 while the matching count is 1. -/
theorem claim_c4_counterexample :
    (findAll [cleanRow] { page := 2, limit := 1, status := some "published" }).pagination.total = 0 ∧
    ([cleanRow].filter (rowMatches (some "published") none none)).length = 1 := by
  decide

/-- Claim C4 (amended): pagination.total equals the matching count exactly
on pages whose window is nonempty (offset below the matching count); pages
past the end report total = 0.  totalPages = ceil(total/limit) over the
reported total, total = 0 gives totalPages = 0, and concatenating the data
of pages 1..ceil(matchCount/limit) yields exactly the matching records --
the sorted filtered snapshot, with no duplicate ids when the snapshot has
none. -/
theorem claim_c4_pagination (db : List SpeciesRow) (p : FindAllParams)
    (hpage : 1 ≤ p.page) (hlimit : 1 ≤ p.limit) :
    ((p.page - 1) * p.limit <
        (db.filter (rowMatches p.status p.mainGroup p.search)).length →
      (findAll db p).pagination.total =
        (db.filter (rowMatches p.status p.mainGroup p.search)).length) ∧
    ((db.filter (rowMatches p.status p.mainGroup p.search)).length ≤
        (p.page - 1) * p.limit →
      (findAll db p).pagination.total = 0) ∧
    (findAll db p).pagination.totalPages =
      ceilDivNat (findAll db p).pagination.total p.limit ∧
    ((findAll db p).pagination.total = 0 → (findAll db p).pagination.totalPages = 0) ∧
    concatPages db p (ceilDivNat
        (db.filter (rowMatches p.status p.mainGroup p.search)).length p.limit) =
      List.insertionSort createdGe (db.filter (rowMatches p.status p.mainGroup p.search)) ∧
    (concatPages db p (ceilDivNat
        (db.filter (rowMatches p.status p.mainGroup p.search)).length p.limit)).length =
      (db.filter (rowMatches p.status p.mainGroup p.search)).length ∧
    ((db.map SpeciesRow.id).Nodup →
      ((concatPages db p (ceilDivNat
        (db.filter (rowMatches p.status p.mainGroup p.search)).length p.limit)).map
          SpeciesRow.id).Nodup) := by
  have hSlen : (List.insertionSort createdGe
      (db.filter (rowMatches p.status p.mainGroup p.search))).length =
      (db.filter (rowMatches p.status p.mainGroup p.search)).length :=
    (List.perm_insertionSort createdGe _).length_eq
  have htot : (findAll db p).pagination.total =
      if (((List.insertionSort createdGe
          (db.filter (rowMatches p.status p.mainGroup p.search))).drop
            ((p.page - 1) * p.limit)).take p.limit).isEmpty then 0
      else (db.filter (rowMatches p.status p.mainGroup p.search)).length := rfl
  have hwlen : (((List.insertionSort createdGe
      (db.filter (rowMatches p.status p.mainGroup p.search))).drop
        ((p.page - 1) * p.limit)).take p.limit).length =
      min p.limit ((db.filter (rowMatches p.status p.mainGroup p.search)).length -
        (p.page - 1) * p.limit) := by
    rw [List.length_take, List.length_drop, hSlen]
  have hconcat : concatPages db p (ceilDivNat
      (db.filter (rowMatches p.status p.mainGroup p.search)).length p.limit) =
      List.insertionSort createdGe (db.filter (rowMatches p.status p.mainGroup p.search)) := by
    have hpages : ∀ i, (findAll db { p with page := i + 1 }).data =
        ((List.insertionSort createdGe
          (db.filter (rowMatches p.status p.mainGroup p.search))).drop
            (i * p.limit)).take p.limit := by
      intro i
      show ((List.insertionSort createdGe
          (db.filter (rowMatches p.status p.mainGroup p.search))).drop
            ((i + 1 - 1) * p.limit)).take p.limit = _
      rw [Nat.add_sub_cancel]
    unfold concatPages
    simp only [hpages]
    exact chunksJoin p.limit hlimit _ _ (by rw [hSlen])
  refine ⟨?_, ?_, rfl, ?_, hconcat, ?_, ?_⟩
  · intro hoff
    rw [htot, if_neg]
    intro hemp
    rw [List.isEmpty_iff] at hemp
    have h0 : (((List.insertionSort createdGe
        (db.filter (rowMatches p.status p.mainGroup p.search))).drop
          ((p.page - 1) * p.limit)).take p.limit).length = 0 := by
      rw [hemp]
      rfl
    rw [hwlen] at h0
    omega
  · intro hoff
    rw [htot, if_pos]
    rw [List.isEmpty_iff, ← List.length_eq_zero, hwlen]
    omega
  · intro h0
    rw [show (findAll db p).pagination.totalPages =
        ceilDivNat (findAll db p).pagination.total p.limit from rfl, h0]
    exact ceilDivNat_zero p.limit
  · rw [hconcat]
    exact hSlen
  · intro hnd
    rw [hconcat]
    have hfnd : ((db.filter (rowMatches p.status p.mainGroup p.search)).map
        SpeciesRow.id).Nodup :=
      List.Nodup.sublist (List.Sublist.map SpeciesRow.id (List.filter_sublist db)) hnd
    exact ((List.perm_insertionSort createdGe _).map SpeciesRow.id).nodup_iff.mpr hfnd

/-- Witness for C4 (amended) at a concrete store: the page concatenation
equals the sorted matching snapshot and the in-range page reports the true
total. -/
theorem claim_c4_witness :
    concatPages [cleanRow] { page := 1, limit := 1, status := some "published" }
        (ceilDivNat ([cleanRow].filter (rowMatches (some "published") none none)).length 1) =
      List.insertionSort createdGe
        ([cleanRow].filter (rowMatches (some "published") none none)) ∧
    (findAll [cleanRow]
        { page := 1, limit := 1, status := some "published" }).pagination.total = 1 :=
  ⟨(claim_c4_pagination [cleanRow] { page := 1, limit := 1, status := some "published" }
      (by decide) (by decide)).2.2.2.2.1,
    (claim_c4_pagination [cleanRow] { page := 1, limit := 1, status := some "published" }
      (by decide) (by decide)).1 (by decide)⟩
